import Mathlib

/-!
# Verification of the claude-status cache layer and task-provider registry

Shallow embedding, in Lean 4, of the cache manager (`internal/cache/cache.go`,
type `Manager`) and of the priority-ordered task-provider registry
(`internal/tasks/registry.go`) of the kostyay/claude-status repository,
together with proofs of the specified cache-invalidation, error-handling and
registry-ordering properties.

Modelling conventions, fixed once for the whole development:

* Go `time.Time` and `time.Duration` are both int64 nanosecond counts in the
  source (`time.Time.Sub` yields a `Duration`, mtimes are `UnixNano` int64);
  both are modelled as `Int`.  Overflow of int64 is irrelevant at the ranges
  involved (nanosecond timestamps), so plain `Int` is used.
* A Go fallible call `f() (T, error)` is modelled as `Except String T`;
  `Except.ok v` is a nil-error return with value `v`, `Except.error e` is a
  non-nil error.  A failed `os.Stat` (the fingerprint mtime lookup) is
  modelled as `Option Int` — `none` is the error case.
* The cache `Manager` is single-threaded in every claim under verification:
  one invocation performs a fixed sequence of load / check / fetch / store
  steps.  The in-process mutex, the advisory file lock and the disk round
  trip are concurrency/IO machinery with no effect on the sequential
  semantics, so the state carried between operations is the cache document
  (`CacheFile`) itself: `load` inside one operation returns the current
  document, `save` produces the next document (this is exactly what the
  memoised `memCache` field makes true within one process).  All calls to
  `m.clock.Now()` within one operation return that operation's `now`
  parameter (the clock is not advanced mid-operation).
* Go maps keyed by strings (`TaskStatsMap`, `NextTaskMap`) are modelled as
  association lists with unique keys; a `nil` Go map and an empty map both
  correspond to `[]` (both make every lookup miss, and the source allocates
  the map before the first insert).
-/

namespace ClaudeStatus

/-- `github.BuildStatus` is a Go string type (`type BuildStatus string`). -/
abbrev BuildStatus := String

/-- `github.StatusError`, the value returned alongside a fetch error by
`GetGitHubBuild`. -/
def statusError : BuildStatus := "error"

/-- `git.DiffStats` (internal/git/git.go): plain data payload cached by
`GetGitDiffStats`.  Go zero value is all fields zero. -/
structure DiffStats where
  additions : Int := 0
  deletions : Int := 0
  newFiles : Int := 0
  modifiedFiles : Int := 0
  deletedFiles : Int := 0
deriving DecidableEq, Repr

/-- `tasks.Stats` (internal/tasks/types.go): plain data payload cached by
`GetTaskStats`.  Go zero value is all fields zero. -/
structure Stats where
  totalIssues : Int := 0
  openIssues : Int := 0
  inProgressIssues : Int := 0
  closedIssues : Int := 0
  blockedIssues : Int := 0
  readyIssues : Int := 0
deriving DecidableEq, Repr

namespace Cache

/-- `cache.CachedValue`: a cached string with its invalidation metadata. -/
structure CachedValue where
  value : String
  fileMtime : Int
  cachedAt : Int
deriving DecidableEq, Repr

/-- `cache.CachedGitHubBuild`: cached GitHub build status; branch-scoped. -/
structure CachedGitHubBuild where
  status : BuildStatus
  fileMtime : Int
  cachedAt : Int
  branch : String
deriving DecidableEq, Repr

/-- `cache.CachedDiffStats`: cached git diff statistics. -/
structure CachedDiffStats where
  stats : DiffStats
  fileMtime : Int
  cachedAt : Int
deriving DecidableEq, Repr

/-- `cache.CachedTaskStats`: cached task statistics (TTL-only metadata). -/
structure CachedTaskStats where
  stats : Stats
  cachedAt : Int
deriving DecidableEq, Repr

/-- `cache.CachedNextTask`: cached next-task title (TTL-only metadata). -/
structure CachedNextTask where
  title : String
  cachedAt : Int
deriving DecidableEq, Repr

/-- `cache.CacheFile`: the persisted cache document.  Go `nil` pointers and
`nil` maps are `none` and `[]` respectively; the Go zero value of the struct
(an empty document) is `{}`. -/
structure CacheFile where
  gitBranch : Option CachedValue := none
  gitStatus : Option CachedValue := none
  gitDiffStats : Option CachedDiffStats := none
  gitHubBuild : Option CachedGitHubBuild := none
  taskStatsMap : List (String × CachedTaskStats) := []
  nextTaskMap : List (String × CachedNextTask) := []
deriving DecidableEq, Repr

/-- Lookup in an association list modelling a Go map read
`v, ok := m[k]` (`some` is `ok = true`). -/
def lookupKey {β : Type} : List (String × β) → String → Option β
  | [], _ => none
  | (k0, v) :: rest, k => if k0 = k then some v else lookupKey rest k

/-- Update of an association list modelling a Go map write `m[k] = v`:
replaces the entry for `k` in place, or appends a fresh one. -/
def setKey {β : Type} : List (String × β) → String → β → List (String × β)
  | [], k, v => [(k, v)]
  | (k0, v0) :: rest, k, v =>
      if k0 = k then (k, v) :: rest else (k0, v0) :: setKey rest k v

/-- The invariant Go maps give the association lists modelling them: keys
are pairwise distinct. -/
def keysNodup {β : Type} (m : List (String × β)) : Prop :=
  (m.map Prod.fst).Nodup

instance {β : Type} (m : List (String × β)) : Decidable (keysNodup m) :=
  inferInstanceAs (Decidable ((m.map Prod.fst).Nodup))

/-- `cache.maxCacheAge = 7 * 24 * time.Hour` in nanoseconds: the retention
window for the per-workdir maps. -/
def maxCacheAge : Int := 7 * 24 * 60 * 60 * 1000000000

/-- `Manager.cleanupOldEntries`: removes the entries of `TaskStatsMap` and
`NextTaskMap` whose age exceeds `maxAge` (the source deletes when
`now.Sub(entry.CachedAt) > maxAge`, i.e. keeps when the age is `≤ maxAge`).
No other field of the document is touched. -/
def cleanupOldEntries (now maxAge : Int) (cache : CacheFile) : CacheFile :=
  { cache with
    taskStatsMap := cache.taskStatsMap.filter fun kv => decide (now - kv.2.cachedAt ≤ maxAge)
    nextTaskMap := cache.nextTaskMap.filter fun kv => decide (now - kv.2.cachedAt ≤ maxAge) }

/-- `Manager.save`: evicts old per-workdir entries via `cleanupOldEntries`
with `maxCacheAge`, then persists the document (and memoises it); the
resulting document is the state seen by every later `load`. -/
def save (now : Int) (cache : CacheFile) : CacheFile :=
  cleanupOldEntries now maxCacheAge cache

/-- The on-disk bytes of the cache file, abstracted: the file can be missing
(`os.ReadFile` error), hold bytes on which `json.Unmarshal` fails, or hold a
well-formed document. -/
inductive DiskData where
  | missing
  | corrupt
  | parsed (cache : CacheFile)

/-- `Manager.load` on first access: a missing file and a deserialization
failure both yield the empty document (never a fatal error); otherwise the
parsed document is returned. -/
def load : DiskData → CacheFile
  | .missing => {}
  | .corrupt => {}
  | .parsed c => c

/-- Result of one cache-manager operation: the returned value, the returned
Go error (`none` = nil), the cache document after the call, and whether the
fetch callback was invoked during the call (each operation invokes it at most
once by construction). -/
structure GetResult (α : Type) where
  value : α
  err : Option String
  cache : CacheFile
  fetchCalled : Bool
deriving DecidableEq, Repr

/-- The hit test of `Manager.GetGitBranch`:
`cache.GitBranch != nil && cache.GitBranch.FileMtime == mtime`, returning the
cached value on a hit. -/
def gitBranchHit (cache : CacheFile) (mtime : Int) : Option String :=
  match cache.gitBranch with
  | some cb => if cb.fileMtime = mtime then some cb.value else none
  | none => none

/-- `Manager.GetGitBranch` (cache.go): `mtimeRes` is the result of
`getFileMtime(headPath)` (`none` = stat error), `fetchFn` the fetch callback.
On stat error the callback is called directly, with no cache read or write.
Otherwise: hit → cached value, no fetch; miss → fetch; fetch error →
propagate, leave document unchanged; fetch ok → re-check (the TOCTOU
re-check under the write lock, which in the sequential model sees the same
document and the same clock), store, `save`. -/
def getGitBranch (now : Int) (mtimeRes : Option Int) (fetchFn : Except String String)
    (cache : CacheFile) : GetResult String :=
  match mtimeRes with
  | none =>
    match fetchFn with
    | .ok v => ⟨v, none, cache, true⟩
    | .error e => ⟨"", some e, cache, true⟩
  | some mtime =>
    match gitBranchHit cache mtime with
    | some v => ⟨v, none, cache, false⟩
    | none =>
      match fetchFn with
      | .error e => ⟨"", some e, cache, true⟩
      | .ok value =>
        match gitBranchHit cache mtime with
        | some v => ⟨v, none, cache, true⟩
        | none =>
          ⟨value, none, save now { cache with gitBranch := some ⟨value, mtime, now⟩ }, true⟩

/-- The hit test of `Manager.GetGitStatus`:
`cache.GitStatus != nil && cache.GitStatus.FileMtime == mtime`. -/
def gitStatusHit (cache : CacheFile) (mtime : Int) : Option String :=
  match cache.gitStatus with
  | some cb => if cb.fileMtime = mtime then some cb.value else none
  | none => none

/-- `Manager.GetGitStatus` (cache.go): identical structure to
`GetGitBranch`, on the `GitStatus` field, keyed on the index file mtime. -/
def getGitStatus (now : Int) (mtimeRes : Option Int) (fetchFn : Except String String)
    (cache : CacheFile) : GetResult String :=
  match mtimeRes with
  | none =>
    match fetchFn with
    | .ok v => ⟨v, none, cache, true⟩
    | .error e => ⟨"", some e, cache, true⟩
  | some mtime =>
    match gitStatusHit cache mtime with
    | some v => ⟨v, none, cache, false⟩
    | none =>
      match fetchFn with
      | .error e => ⟨"", some e, cache, true⟩
      | .ok value =>
        match gitStatusHit cache mtime with
        | some v => ⟨v, none, cache, true⟩
        | none =>
          ⟨value, none, save now { cache with gitStatus := some ⟨value, mtime, now⟩ }, true⟩

/-- The hit test of `Manager.GetGitDiffStats`:
`cache.GitDiffStats != nil && cache.GitDiffStats.FileMtime == mtime`. -/
def gitDiffStatsHit (cache : CacheFile) (mtime : Int) : Option DiffStats :=
  match cache.gitDiffStats with
  | some cb => if cb.fileMtime = mtime then some cb.stats else none
  | none => none

/-- `Manager.GetGitDiffStats` (cache.go): identical structure to
`GetGitBranch`, on the `GitDiffStats` field; the Go zero value returned
alongside a fetch error is the zero `DiffStats`. -/
def getGitDiffStats (now : Int) (mtimeRes : Option Int)
    (fetchFn : Except String DiffStats) (cache : CacheFile) : GetResult DiffStats :=
  match mtimeRes with
  | none =>
    match fetchFn with
    | .ok v => ⟨v, none, cache, true⟩
    | .error e => ⟨{}, some e, cache, true⟩
  | some mtime =>
    match gitDiffStatsHit cache mtime with
    | some v => ⟨v, none, cache, false⟩
    | none =>
      match fetchFn with
      | .error e => ⟨{}, some e, cache, true⟩
      | .ok stats =>
        match gitDiffStatsHit cache mtime with
        | some v => ⟨v, none, cache, true⟩
        | none =>
          ⟨stats, none, save now { cache with gitDiffStats := some ⟨stats, mtime, now⟩ }, true⟩

/-- The fingerprint computation at the top of `Manager.GetGitHubBuild`:
`getFileMtime(refPath)`, falling back to `getPackedRefsMtime(refPath)` when
the branch ref file cannot be statted, and to the sentinel `0` when the
packed-refs file cannot be statted either (so that caching still proceeds
and the TTL alone governs invalidation). -/
def githubFingerprint (refMtime packedRefsMtime : Option Int) : Int :=
  match refMtime with
  | some m => m
  | none =>
    match packedRefsMtime with
    | some m => m
    | none => 0

/-- The hit test of `Manager.GetGitHubBuild`:
`cache.GitHubBuild != nil && cache.GitHubBuild.Branch == branch`, then
`refMtimeMatches && ttlValid` where `refMtimeMatches` is fingerprint
equality and `ttlValid` is `now.Sub(CachedAt) < ttl`. -/
def gitHubBuildHit (cache : CacheFile) (branch : String) (mtime now ttl : Int) :
    Option BuildStatus :=
  match cache.gitHubBuild with
  | some cb =>
    if cb.branch = branch then
      if cb.fileMtime = mtime ∧ now - cb.cachedAt < ttl then some cb.status else none
    else none
  | none => none

/-- `Manager.GetGitHubBuild` (cache.go): `refMtime` and `packedRefsMtime` are
the results of the two mtime lookups (`none` = stat error).  Unlike the git
operations, a missing fingerprint never skips the cache: the fingerprint
falls back per `githubFingerprint`.  Hit requires branch match, fingerprint
match and unexpired TTL; a fetch error propagates with value
`github.StatusError` and leaves the document unchanged. -/
def getGitHubBuild (now : Int) (refMtime packedRefsMtime : Option Int) (branch : String)
    (ttl : Int) (fetchFn : Except String BuildStatus) (cache : CacheFile) :
    GetResult BuildStatus :=
  let mtime := githubFingerprint refMtime packedRefsMtime
  match gitHubBuildHit cache branch mtime now ttl with
  | some s => ⟨s, none, cache, false⟩
  | none =>
    match fetchFn with
    | .error e => ⟨statusError, some e, cache, true⟩
    | .ok status =>
      match gitHubBuildHit cache branch mtime now ttl with
      | some s => ⟨s, none, cache, true⟩
      | none =>
        ⟨status, none, save now { cache with gitHubBuild := some ⟨status, mtime, now, branch⟩ },
          true⟩

/-- The hit test of `Manager.GetTaskStats`: presence of the `workDir` key in
`TaskStatsMap` (a `nil` map makes every lookup miss) and
`now.Sub(CachedAt) < ttl`. -/
def taskStatsHit (cache : CacheFile) (workDir : String) (now ttl : Int) : Option Stats :=
  match lookupKey cache.taskStatsMap workDir with
  | some cached => if now - cached.cachedAt < ttl then some cached.stats else none
  | none => none

/-- `Manager.GetTaskStats` (cache.go): TTL-only invalidation, keyed per
`workDir`; on a miss with a successful fetch the entry for `workDir` is
overwritten and the document saved (which also evicts old per-workdir
entries).  The Go zero value returned alongside a fetch error is the zero
`Stats`. -/
def getTaskStats (now : Int) (workDir : String) (ttl : Int)
    (fetchFn : Except String Stats) (cache : CacheFile) : GetResult Stats :=
  match taskStatsHit cache workDir now ttl with
  | some s => ⟨s, none, cache, false⟩
  | none =>
    match fetchFn with
    | .error e => ⟨{}, some e, cache, true⟩
    | .ok stats =>
      match taskStatsHit cache workDir now ttl with
      | some s => ⟨s, none, cache, true⟩
      | none =>
        ⟨stats, none,
          save now { cache with taskStatsMap := setKey cache.taskStatsMap workDir ⟨stats, now⟩ },
          true⟩

/-- The hit test of `Manager.GetNextTask`: presence of the `workDir` key in
`NextTaskMap` and `now.Sub(CachedAt) < ttl`. -/
def nextTaskHit (cache : CacheFile) (workDir : String) (now ttl : Int) : Option String :=
  match lookupKey cache.nextTaskMap workDir with
  | some cached => if now - cached.cachedAt < ttl then some cached.title else none
  | none => none

/-- `Manager.GetNextTask` (cache.go): identical structure to `GetTaskStats`,
on the `NextTaskMap` field, caching the next-task title per `workDir`. -/
def getNextTask (now : Int) (workDir : String) (ttl : Int)
    (fetchFn : Except String String) (cache : CacheFile) : GetResult String :=
  match nextTaskHit cache workDir now ttl with
  | some t => ⟨t, none, cache, false⟩
  | none =>
    match fetchFn with
    | .error e => ⟨"", some e, cache, true⟩
    | .ok title =>
      match nextTaskHit cache workDir now ttl with
      | some t => ⟨t, none, cache, true⟩
      | none =>
        ⟨title, none,
          save now { cache with nextTaskMap := setKey cache.nextTaskMap workDir ⟨title, now⟩ },
          true⟩

end Cache

namespace Tasks

/-- `tasks.Provider` (internal/tasks/types.go), restricted to the members the
registry code consults: `Name()` and `Available()` (the stats/next-task
members are fetch calls never touched by registration or selection). -/
structure Provider where
  name : String
  available : Bool
deriving DecidableEq, Repr

/-- `tasks.ProviderFactory`: builds a `Provider` for a working directory;
construction is pure (cannot fail). -/
abbrev ProviderFactory := String → Provider

/-- `tasks.registeredProvider`: a factory paired with its priority. -/
structure RegisteredProvider where
  factory : ProviderFactory
  priority : Int

/-- The comparison relation passed to `sort.Slice` in `RegisterWithPriority`
(`registry[i].priority < registry[j].priority`), as the reflexive order the
sorted result satisfies: ascending priority. -/
def prioLE (a b : RegisteredProvider) : Prop := a.priority ≤ b.priority

instance : DecidableRel prioLE := fun a b =>
  inferInstanceAs (Decidable (a.priority ≤ b.priority))

instance : IsTotal RegisteredProvider prioLE :=
  ⟨fun a b => Int.le_total a.priority b.priority⟩

instance : IsTrans RegisteredProvider prioLE :=
  ⟨fun _ _ _ => Int.le_trans⟩

/-- The contract of Go's `sort.Slice` with the less function
`registry[i].priority < registry[j].priority`: the result is a permutation
of the input that is sorted by ascending priority.  Go documents `sort.Slice`
as "not guaranteed to be stable", so the embedding quantifies over every
implementation satisfying this contract rather than fixing one algorithm. -/
def SortSliceSpec (f : List RegisteredProvider → List RegisteredProvider) : Prop :=
  ∀ l : List RegisteredProvider, (f l).Perm l ∧ (f l).Sorted prioLE

/-- `tasks.RegisterWithPriority` (internal/tasks/registry.go): appends the
new registration to the registry and re-sorts the whole list with
`sort.Slice`; `sortImpl` is the sorting routine, constrained by
`SortSliceSpec` in the theorems. -/
def registerWithPriority (sortImpl : List RegisteredProvider → List RegisteredProvider)
    (reg : List RegisteredProvider) (priority : Int) (factory : ProviderFactory) :
    List RegisteredProvider :=
  sortImpl (reg ++ [{ factory := factory, priority := priority }])

/-- A sequence of `RegisterWithPriority` calls starting from the empty
registry, given as (priority, factory) pairs in registration order. -/
def registerAll (sortImpl : List RegisteredProvider → List RegisteredProvider)
    (regs : List (Int × ProviderFactory)) : List RegisteredProvider :=
  regs.foldl (fun acc pf => registerWithPriority sortImpl acc pf.1 pf.2) []

/-- Priority constants `PriorityKT`, `PriorityTK`, `PriorityBeads`. -/
def priorityKT : Int := 10

/-- `PriorityTK = 20`. -/
def priorityTK : Int := 20

/-- `PriorityBeads = 30`. -/
def priorityBeads : Int := 30

/-- `tasks.SelectProvider` (internal/tasks/registry.go): walks the registry
in order, instantiates each factory with `workDir`, probes `Available()`,
and returns the first available instance; `none` (Go `nil`) when no
registered provider is available. -/
def selectProvider (workDir : String) : List RegisteredProvider → Option Provider
  | [] => none
  | rp :: rest =>
    let provider := rp.factory workDir
    if provider.available then some provider else selectProvider workDir rest

/-- A `SortSliceSpec`-satisfying sorting routine: stable insertion sort.
Used to instantiate the registry theorems on concrete inputs. -/
def sortByPriority : List RegisteredProvider → List RegisteredProvider :=
  List.insertionSort prioLE

/-- Another `SortSliceSpec`-satisfying sorting routine: insertion sort on the
reversed input.  It sorts correctly but reverses the relative order of
equal-priority elements, exhibiting the latitude `sort.Slice` is allowed. -/
def reverseThenSort : List RegisteredProvider → List RegisteredProvider :=
  fun l => List.insertionSort prioLE l.reverse

/-- A factory whose provider probes available, tagged with a name. -/
def availableFactory (n : String) : ProviderFactory := fun _ => ⟨n, true⟩

/-- A factory whose provider probes unavailable, tagged with a name. -/
def unavailableFactory (n : String) : ProviderFactory := fun _ => ⟨n, false⟩

end Tasks

/-! ## Helper lemmas: association lists -/

namespace Cache

theorem lookupKey_setKey_self {β : Type} (m : List (String × β)) (k : String) (v : β) :
    lookupKey (setKey m k v) k = some v := by
  induction m with
  | nil => simp [setKey, lookupKey]
  | cons kv rest ih =>
    obtain ⟨k0, v0⟩ := kv
    by_cases h : k0 = k
    · simp [setKey, h, lookupKey]
    · simp [setKey, h, lookupKey, ih]

theorem lookupKey_setKey_ne {β : Type} (m : List (String × β)) (k k' : String) (v : β)
    (h : k' ≠ k) : lookupKey (setKey m k v) k' = lookupKey m k' := by
  induction m with
  | nil => simp [setKey, lookupKey, Ne.symm h]
  | cons kv rest ih =>
    obtain ⟨k0, v0⟩ := kv
    by_cases h0 : k0 = k
    · subst h0
      simp [setKey, lookupKey, Ne.symm h]
    · simp [setKey, h0, lookupKey, ih]

theorem lookupKey_eq_none_of_not_mem {β : Type} (m : List (String × β)) (k : String)
    (h : k ∉ m.map Prod.fst) : lookupKey m k = none := by
  induction m with
  | nil => simp [lookupKey]
  | cons kv rest ih =>
    obtain ⟨k0, v0⟩ := kv
    simp only [List.map_cons, List.mem_cons, not_or] at h
    simp [lookupKey, Ne.symm h.1, ih h.2]

theorem lookupKey_filter_eq_none {β : Type} (m : List (String × β))
    (p : String × β → Bool) (k : String) (h : lookupKey m k = none) :
    lookupKey (m.filter p) k = none := by
  induction m with
  | nil => simp [lookupKey]
  | cons kv rest ih =>
    obtain ⟨k0, v0⟩ := kv
    by_cases h0 : k0 = k
    · subst h0
      simp [lookupKey] at h
    · simp only [lookupKey, h0, if_false] at h
      by_cases hp : p (k0, v0)
      · simp [List.filter_cons, hp, lookupKey, h0, ih h]
      · simp [List.filter_cons, hp, ih h]

theorem lookupKey_filter_of_pos {β : Type} (m : List (String × β))
    (p : String × β → Bool) (k : String) (e : β) (h : lookupKey m k = some e)
    (hp : p (k, e) = true) : lookupKey (m.filter p) k = some e := by
  induction m with
  | nil => simp [lookupKey] at h
  | cons kv rest ih =>
    obtain ⟨k0, v0⟩ := kv
    by_cases h0 : k0 = k
    · subst h0
      have hv : v0 = e := by simpa [lookupKey] using h
      subst hv
      simp [List.filter_cons, hp, lookupKey]
    · simp only [lookupKey, h0, if_false] at h
      by_cases hq : p (k0, v0)
      · simp [List.filter_cons, hq, lookupKey, h0, ih h]
      · simp [List.filter_cons, hq, ih h]

theorem lookupKey_filter_iff {β : Type} (m : List (String × β)) (hn : keysNodup m)
    (p : String × β → Bool) (k : String) (e : β) :
    lookupKey (m.filter p) k = some e ↔ lookupKey m k = some e ∧ p (k, e) = true := by
  induction m with
  | nil => simp [lookupKey]
  | cons kv rest ih =>
    obtain ⟨k0, v0⟩ := kv
    simp only [keysNodup, List.map_cons, List.nodup_cons] at hn
    by_cases h0 : k0 = k
    · subst h0
      have hrest : lookupKey rest k0 = none :=
        lookupKey_eq_none_of_not_mem rest k0 hn.1
      by_cases hp : p (k0, v0)
      · constructor
        · intro hL
          have hv : v0 = e := by simpa [List.filter_cons, hp, lookupKey] using hL
          subst hv
          simp [lookupKey, hp]
        · rintro ⟨hE, _⟩
          have hv : v0 = e := by simpa [lookupKey] using hE
          subst hv
          simp [List.filter_cons, hp, lookupKey]
      · constructor
        · intro hL
          rw [show List.filter p ((k0, v0) :: rest) = List.filter p rest by
            simp [List.filter_cons, hp]] at hL
          rw [lookupKey_filter_eq_none rest p k0 hrest] at hL
          cases hL
        · rintro ⟨hE, hPe⟩
          have hv : v0 = e := by simpa [lookupKey] using hE
          subst hv
          exact absurd hPe hp
    · have ihr := ih hn.2
      by_cases hq : p (k0, v0)
      · simpa [List.filter_cons, hq, lookupKey, h0] using ihr
      · simpa [List.filter_cons, hq, lookupKey, h0] using ihr

theorem gitHubBuildHit_of_entry (cache : CacheFile) (e : CachedGitHubBuild)
    (branch : String) (mtime now ttl : Int) (he : cache.gitHubBuild = some e) :
    gitHubBuildHit cache branch mtime now ttl =
      if e.branch = branch ∧ e.fileMtime = mtime ∧ now - e.cachedAt < ttl
      then some e.status else none := by
  simp only [gitHubBuildHit, he]
  by_cases h1 : e.branch = branch
  · by_cases h2 : e.fileMtime = mtime ∧ now - e.cachedAt < ttl
    · simp [h1, h2]
    · simp [h1, h2]
  · simp [h1]

end Cache

/-! ## Helper lemmas: registry -/

namespace Tasks

theorem sortSliceSpec_sortByPriority : SortSliceSpec sortByPriority :=
  fun l => ⟨List.perm_insertionSort prioLE l, List.sorted_insertionSort prioLE l⟩

theorem sortSliceSpec_reverseThenSort : SortSliceSpec reverseThenSort :=
  fun l =>
    ⟨(List.perm_insertionSort prioLE l.reverse).trans (List.reverse_perm l),
     List.sorted_insertionSort prioLE l.reverse⟩

theorem foldl_register_sorted (sortImpl : List RegisteredProvider → List RegisteredProvider)
    (h : SortSliceSpec sortImpl) (regs : List (Int × ProviderFactory)) :
    ∀ acc : List RegisteredProvider, acc.Sorted prioLE →
      (regs.foldl (fun a pf => registerWithPriority sortImpl a pf.1 pf.2) acc).Sorted prioLE := by
  induction regs with
  | nil =>
    intro acc hacc
    simpa using hacc
  | cons pf rest ih =>
    intro acc hacc
    simp only [List.foldl_cons]
    exact ih _ ((h _).2)

theorem foldl_register_perm (sortImpl : List RegisteredProvider → List RegisteredProvider)
    (h : SortSliceSpec sortImpl) (regs : List (Int × ProviderFactory)) :
    ∀ acc : List RegisteredProvider,
      (regs.foldl (fun a pf => registerWithPriority sortImpl a pf.1 pf.2) acc).Perm
        (acc ++ regs.map fun pf => { factory := pf.2, priority := pf.1 }) := by
  induction regs with
  | nil =>
    intro acc
    simp
  | cons pf rest ih =>
    intro acc
    simp only [List.foldl_cons, List.map_cons]
    refine (ih _).trans ?_
    have h1 : (registerWithPriority sortImpl acc pf.1 pf.2).Perm
        (acc ++ [{ factory := pf.2, priority := pf.1 }]) := (h _).1
    simpa using h1.append_right (rest.map fun pf => { factory := pf.2, priority := pf.1 })

theorem registerAll_sorted (sortImpl : List RegisteredProvider → List RegisteredProvider)
    (h : SortSliceSpec sortImpl) (regs : List (Int × ProviderFactory)) :
    (registerAll sortImpl regs).Sorted prioLE :=
  foldl_register_sorted sortImpl h regs [] List.sorted_nil

theorem registerAll_perm (sortImpl : List RegisteredProvider → List RegisteredProvider)
    (h : SortSliceSpec sortImpl) (regs : List (Int × ProviderFactory)) :
    (registerAll sortImpl regs).Perm
      (regs.map fun pf => { factory := pf.2, priority := pf.1 }) := by
  simpa [registerAll] using foldl_register_perm sortImpl h regs []

theorem selectProvider_eq_find (w : String) (reg : List RegisteredProvider) :
    selectProvider w reg = (reg.map fun rp => rp.factory w).find? fun p => p.available := by
  induction reg with
  | nil => rfl
  | cons rp rest ih =>
    by_cases h : (rp.factory w).available
    · simp [selectProvider, h, List.find?_cons_of_pos]
    · simp [selectProvider, h, List.find?_cons_of_neg, ih]

end Tasks

/-! ## Claim C3: registry ordering after `RegisterWithPriority` -/

namespace Tasks

/-- Claim C3, as stated, is false: `RegisterWithPriority` re-sorts the registry
with `sort.Slice`, whose contract does not guarantee stability.  Concretely,
`reverseThenSort` satisfies the full `sort.Slice` contract (first conjunct),
yet registering the factory named "first" and then the factory named "second",
both at priority 5, leaves the registry in the order "second", "first" —
the reverse of the registration order, refuting stable-sort semantics. -/
theorem registerWithPriority_not_stable :
    SortSliceSpec reverseThenSort ∧
    (registerWithPriority reverseThenSort
        (registerWithPriority reverseThenSort [] 5 (availableFactory "first"))
        5 (availableFactory "second")).map (fun rp => (rp.factory "w").name) =
      ["second", "first"] :=
  ⟨sortSliceSpec_reverseThenSort, by decide⟩

/-- Claim C3 (amended): after every sequence of `RegisterWithPriority` calls
starting from an empty registry, and for every sorting routine satisfying the
contract of `sort.Slice` (a sorted permutation of its input), the registry is
sorted ascending by priority and holds exactly the registered entries.
Stability for equal priorities is not guaranteed, since `sort.Slice` is not a
stable sort (the in-repo registrations use the three distinct priorities
10/20/30, for which the order is unique anyway). -/
theorem registerWithPriority_sorted
    (sortImpl : List RegisteredProvider → List RegisteredProvider)
    (h : SortSliceSpec sortImpl) (regs : List (Int × ProviderFactory)) :
    (registerAll sortImpl regs).Sorted prioLE ∧
    (registerAll sortImpl regs).Perm
      (regs.map fun pf => { factory := pf.2, priority := pf.1 }) :=
  ⟨registerAll_sorted sortImpl h regs, registerAll_perm sortImpl h regs⟩

/-- Witness for the amended claim C3: the stable insertion sort satisfies the
`sort.Slice` contract, and the theorem applies to the concrete registration
sequence 30, 10, 20 (the reverse-priority sequence of the repository test). -/
theorem registerWithPriority_sorted_witness :
    SortSliceSpec sortByPriority ∧
    ((registerAll sortByPriority
        [(30, availableFactory "beads"), (10, availableFactory "kt"),
          (20, availableFactory "tk")]).Sorted prioLE ∧
      (registerAll sortByPriority
        [(30, availableFactory "beads"), (10, availableFactory "kt"),
          (20, availableFactory "tk")]).Perm
        (([(30, availableFactory "beads"), (10, availableFactory "kt"),
          (20, availableFactory "tk")] : List (Int × ProviderFactory)).map
          fun pf => { factory := pf.2, priority := pf.1 })) :=
  ⟨sortSliceSpec_sortByPriority,
    registerWithPriority_sorted sortByPriority sortSliceSpec_sortByPriority _⟩

end Tasks

/-! ## Claim C7: `SelectProvider` probes in ascending priority order -/

namespace Tasks

/-- Claim C7: for any registry built by `RegisterWithPriority` calls (under
any `sort.Slice`-contract sorting routine), `SelectProvider` walks a registry
sorted ascending by priority, returns exactly the first probed instance whose
availability probe succeeds, and returns `none` (Go `nil`), not an error,
when every registered provider probes unavailable. -/
theorem selectProvider_first_available
    (sortImpl : List RegisteredProvider → List RegisteredProvider)
    (h : SortSliceSpec sortImpl) (regs : List (Int × ProviderFactory)) (w : String) :
    (registerAll sortImpl regs).Sorted prioLE ∧
    selectProvider w (registerAll sortImpl regs) =
      ((registerAll sortImpl regs).map fun rp => rp.factory w).find?
        (fun p => p.available) ∧
    ((∀ rp ∈ registerAll sortImpl regs, (rp.factory w).available = false) →
      selectProvider w (registerAll sortImpl regs) = none) := by
  refine ⟨registerAll_sorted sortImpl h regs, selectProvider_eq_find w _, ?_⟩
  intro hall
  rw [selectProvider_eq_find]
  refine List.find?_eq_none.mpr ?_
  intro p hp
  obtain ⟨rp, hrp, rfl⟩ := List.mem_map.mp hp
  simp [hall rp hrp]

/-- Witness for claim C7: registration sequence at priorities 10, 30, 20 (in
that insertion order) with 10 and 20 unavailable and 30 available; the
theorem applies, and on this input the probe list is sorted 10, 20, 30 and
the selected provider is the priority-30 one ("beads"). -/
theorem selectProvider_first_available_witness :
    SortSliceSpec sortByPriority ∧
    ((registerAll sortByPriority
        [(10, unavailableFactory "kt"), (30, availableFactory "beads"),
          (20, unavailableFactory "tk")]).Sorted prioLE ∧
      selectProvider "w" (registerAll sortByPriority
        [(10, unavailableFactory "kt"), (30, availableFactory "beads"),
          (20, unavailableFactory "tk")]) =
        ((registerAll sortByPriority
          [(10, unavailableFactory "kt"), (30, availableFactory "beads"),
            (20, unavailableFactory "tk")]).map fun rp => rp.factory "w").find?
          (fun p => p.available) ∧
      ((∀ rp ∈ registerAll sortByPriority
          [(10, unavailableFactory "kt"), (30, availableFactory "beads"),
            (20, unavailableFactory "tk")], (rp.factory "w").available = false) →
        selectProvider "w" (registerAll sortByPriority
          [(10, unavailableFactory "kt"), (30, availableFactory "beads"),
            (20, unavailableFactory "tk")]) = none)) ∧
    selectProvider "w" (registerAll sortByPriority
      [(10, unavailableFactory "kt"), (30, availableFactory "beads"),
        (20, unavailableFactory "tk")]) = some { name := "beads", available := true } :=
  ⟨sortSliceSpec_sortByPriority,
    selectProvider_first_available sortByPriority sortSliceSpec_sortByPriority _ "w",
    by decide⟩

end Tasks

/-! ## Claim C1: `GetGitHubBuild` hit condition -/

namespace Cache

/-- Claim C1: for a `GetGitHubBuild` call against a document holding an entry
`e`, the cached value is returned without invoking fetch if and only if the
stored branch equals the query branch, the stored fingerprint equals the
currently computed fingerprint, and the entry age is strictly below the TTL;
when the call does invoke fetch (in particular on a TTL expiry alone, or on a
branch mismatch alone), a successful fetch result is stored — branch-scoped,
stamped with the current fingerprint and `now` — and returned. -/
theorem getGitHubBuild_cached_iff
    (now : Int) (refMtime packedRefsMtime : Option Int) (branch : String) (ttl : Int)
    (fetchFn : Except String BuildStatus) (cache : CacheFile) (e : CachedGitHubBuild)
    (he : cache.gitHubBuild = some e) :
    ((getGitHubBuild now refMtime packedRefsMtime branch ttl fetchFn cache).fetchCalled =
        false ↔
      e.branch = branch ∧ e.fileMtime = githubFingerprint refMtime packedRefsMtime ∧
        now - e.cachedAt < ttl) ∧
    ((getGitHubBuild now refMtime packedRefsMtime branch ttl fetchFn cache).fetchCalled =
        false →
      getGitHubBuild now refMtime packedRefsMtime branch ttl fetchFn cache =
        ⟨e.status, none, cache, false⟩) ∧
    (∀ s, fetchFn = .ok s →
      (getGitHubBuild now refMtime packedRefsMtime branch ttl fetchFn cache).fetchCalled =
        true →
      getGitHubBuild now refMtime packedRefsMtime branch ttl fetchFn cache =
        ⟨s, none,
          save now { cache with
            gitHubBuild := some ⟨s, githubFingerprint refMtime packedRefsMtime, now, branch⟩ },
          true⟩) := by
  have hhit := gitHubBuildHit_of_entry cache e branch
    (githubFingerprint refMtime packedRefsMtime) now ttl he
  by_cases hc : e.branch = branch ∧
      e.fileMtime = githubFingerprint refMtime packedRefsMtime ∧ now - e.cachedAt < ttl
  · rw [if_pos hc] at hhit
    refine ⟨by simp [getGitHubBuild, hhit, hc], ?_, ?_⟩
    · intro _
      simp [getGitHubBuild, hhit]
    · intro s hs habs
      simp [getGitHubBuild, hhit] at habs
  · rw [if_neg hc] at hhit
    rcases fetchFn with err | s
    · refine ⟨by simp [getGitHubBuild, hhit, hc], ?_, ?_⟩
      · intro habs
        simp [getGitHubBuild, hhit] at habs
      · intro s hs
        cases hs
    · refine ⟨by simp [getGitHubBuild, hhit, hc], ?_, ?_⟩
      · intro habs
        simp [getGitHubBuild, hhit] at habs
      · intro s' hs _
        cases hs
        simp [getGitHubBuild, hhit]

/-- Witness for claim C1: a document holding a build entry for branch "main",
fingerprint 5, cached at time 100; queried at time 150 with TTL 100 and
matching fingerprint, so all three hit conditions hold, no fetch occurs and
the cached status "success" is returned with the document untouched. -/
theorem getGitHubBuild_cached_iff_witness :
    ({ gitHubBuild := some ⟨"success", 5, 100, "main"⟩ } : CacheFile).gitHubBuild =
      some ⟨"success", 5, 100, "main"⟩ ∧
    (getGitHubBuild 150 (some 5) none "main" 100 (.ok "pending")
        { gitHubBuild := some ⟨"success", 5, 100, "main"⟩ }).fetchCalled = false ∧
    getGitHubBuild 150 (some 5) none "main" 100 (.ok "pending")
        { gitHubBuild := some ⟨"success", 5, 100, "main"⟩ } =
      ⟨"success", none, { gitHubBuild := some ⟨"success", 5, 100, "main"⟩ }, false⟩ := by
  have h := getGitHubBuild_cached_iff 150 (some 5) none "main" 100 (.ok "pending")
    { gitHubBuild := some ⟨"success", 5, 100, "main"⟩ } ⟨"success", 5, 100, "main"⟩ rfl
  have hf : (getGitHubBuild 150 (some 5) none "main" 100 (.ok "pending")
      { gitHubBuild := some ⟨"success", 5, 100, "main"⟩ }).fetchCalled = false :=
    h.1.mpr ⟨rfl, rfl, by decide⟩
  exact ⟨rfl, hf, h.2.1 hf⟩

/-! ## Claim C2: repeated `GetGitBranch` with unchanged fingerprint -/

/-- Claim C2, as stated, is false: it quantifies over every fetch callback,
but when the callback fails the failure is deliberately not cached
(non-poisoning, claim C5), so a second call with the unchanged fingerprint
invokes fetch again.  Concretely: empty document, fingerprint mtime 1 at both
calls, callback failing with "boom" — fetch is invoked by both calls,
refuting "executed at most once", and the second call does invoke fetch. -/
theorem getGitBranch_twice_failing_fetch :
    (getGitBranch 0 (some 1) (.error "boom") {}).fetchCalled = true ∧
    (getGitBranch 0 (some 1) (.error "boom")
      (getGitBranch 0 (some 1) (.error "boom") {}).cache).fetchCalled = true := by
  decide

/-- Claim C2 (amended): for two `GetGitBranch` calls with the fingerprint
file's mtime unchanged between the calls, provided the first call's fetch
callback succeeds, fetch executes at most once — the second call (whatever
its callback) performs no fetch, returns exactly the first call's value with
a nil error, and leaves the document unchanged.  (Each call invokes its
callback at most once by construction, and the second call invokes it not at
all, hence at most one execution across the pair.) -/
theorem getGitBranch_second_call_cached
    (now1 now2 t : Int) (v : String) (fetch2 : Except String String) (cache : CacheFile) :
    getGitBranch now2 (some t) fetch2 (getGitBranch now1 (some t) (.ok v) cache).cache =
      ⟨(getGitBranch now1 (some t) (.ok v) cache).value, none,
        (getGitBranch now1 (some t) (.ok v) cache).cache, false⟩ := by
  rcases hhit : gitBranchHit cache t with _ | w
  · have hstored : (save now1 { cache with gitBranch := some ⟨v, t, now1⟩ }).gitBranch =
        some ⟨v, t, now1⟩ := rfl
    have hhit2 : gitBranchHit (save now1 { cache with gitBranch := some ⟨v, t, now1⟩ }) t =
        some v := by
      simp [gitBranchHit, hstored]
    simp [getGitBranch, hhit, hhit2]
  · simp [getGitBranch, hhit]

/-! ## Claim C4: missing fingerprint — skip-cache rule vs GitHub sentinel -/

/-- Claim C4: when the fingerprint file's mtime cannot be obtained (`none`),
`GetGitBranch`, `GetGitStatus` and `GetGitDiffStats` call fetch directly and
leave the document untouched in every outcome (skip caching), whereas
`GetGitHubBuild` falls back to the packed-refs mtime, then to the sentinel
fingerprint 0, and still reads the cache (an entry stored under fingerprint 0
with valid TTL is returned with no fetch, so the TTL alone governs
invalidation) and still writes it (a successful fetch on a miss is stored
with fingerprint 0). -/
theorem missing_fingerprint_policy
    (now : Int) (cache : CacheFile) (f g : Except String String)
    (d : Except String DiffStats) (fb : Except String BuildStatus)
    (branch : String) (ttl pm : Int) :
    (∀ v, f = .ok v → getGitBranch now none f cache = ⟨v, none, cache, true⟩) ∧
    (∀ e, f = .error e → getGitBranch now none f cache = ⟨"", some e, cache, true⟩) ∧
    (∀ v, g = .ok v → getGitStatus now none g cache = ⟨v, none, cache, true⟩) ∧
    (∀ e, g = .error e → getGitStatus now none g cache = ⟨"", some e, cache, true⟩) ∧
    (∀ v, d = .ok v → getGitDiffStats now none d cache = ⟨v, none, cache, true⟩) ∧
    (∀ e, d = .error e → getGitDiffStats now none d cache = ⟨{}, some e, cache, true⟩) ∧
    githubFingerprint none (some pm) = pm ∧
    githubFingerprint none none = 0 ∧
    (∀ e, cache.gitHubBuild = some e → e.branch = branch → e.fileMtime = 0 →
      now - e.cachedAt < ttl →
      getGitHubBuild now none none branch ttl fb cache = ⟨e.status, none, cache, false⟩) ∧
    (∀ s, fb = .ok s → gitHubBuildHit cache branch 0 now ttl = none →
      getGitHubBuild now none none branch ttl fb cache =
        ⟨s, none, save now { cache with gitHubBuild := some ⟨s, 0, now, branch⟩ }, true⟩) := by
  refine ⟨?_, ?_, ?_, ?_, ?_, ?_, rfl, rfl, ?_, ?_⟩
  · rintro v rfl
    simp [getGitBranch]
  · rintro e rfl
    simp [getGitBranch]
  · rintro v rfl
    simp [getGitStatus]
  · rintro e rfl
    simp [getGitStatus]
  · rintro v rfl
    simp [getGitDiffStats]
  · rintro e rfl
    simp [getGitDiffStats]
  · intro e he hb hm httl
    have hhit : gitHubBuildHit cache branch (githubFingerprint none none) now ttl =
        some e.status := by
      rw [gitHubBuildHit_of_entry cache e branch (githubFingerprint none none) now ttl he]
      rw [if_pos ⟨hb, by simpa [githubFingerprint] using hm, httl⟩]
    simp [getGitHubBuild, hhit]
  · rintro s rfl hmiss
    simp [getGitHubBuild, githubFingerprint, hmiss]

/-- Witness for claim C4: at concrete inputs, a successful and a failing fetch
through each of the three skip-cache operations leave a nonempty document
untouched; the GitHub fingerprint falls back to packed-refs mtime 7 and to
the sentinel 0; and with both mtimes missing `GetGitHubBuild` still serves a
fingerprint-0 entry from cache (no fetch) and still stores a fetched result
on a miss. -/
theorem missing_fingerprint_policy_witness :
    (getGitBranch 9 none (.ok "main")
        { gitBranch := some ⟨"old", 1, 2⟩ } =
      ⟨"main", none, { gitBranch := some ⟨"old", 1, 2⟩ }, true⟩) ∧
    (getGitStatus 9 none (.error "no index")
        { gitBranch := some ⟨"old", 1, 2⟩ } =
      ⟨"", some "no index", { gitBranch := some ⟨"old", 1, 2⟩ }, true⟩) ∧
    (getGitDiffStats 9 none (.ok {})
        { gitBranch := some ⟨"old", 1, 2⟩ } =
      ⟨{}, none, { gitBranch := some ⟨"old", 1, 2⟩ }, true⟩) ∧
    githubFingerprint none (some 7) = 7 ∧
    githubFingerprint none none = 0 ∧
    (getGitHubBuild 9 none none "main" 100 (.ok "pending")
        { gitHubBuild := some ⟨"success", 0, 5, "main"⟩ } =
      ⟨"success", none, { gitHubBuild := some ⟨"success", 0, 5, "main"⟩ }, false⟩) ∧
    (getGitHubBuild 9 none none "main" 100 (.ok "pending") {} =
      ⟨"pending", none, save 9 { gitHubBuild := some ⟨"pending", 0, 9, "main"⟩ }, true⟩) := by
  have h1 := missing_fingerprint_policy 9 { gitBranch := some ⟨"old", 1, 2⟩ }
    (.ok "main") (.error "no index") (.ok {}) (.ok "pending") "main" 100 7
  have h2 := missing_fingerprint_policy 9 { gitHubBuild := some ⟨"success", 0, 5, "main"⟩ }
    (.ok "main") (.error "no index") (.ok {}) (.ok "pending") "main" 100 7
  have h3 := missing_fingerprint_policy 9 {} (.ok "main") (.error "no index") (.ok {})
    (.ok "pending") "main" 100 7
  refine ⟨h1.1 "main" rfl, h1.2.2.2.1 "no index" rfl, h1.2.2.2.2.1 {} rfl, rfl, rfl, ?_, ?_⟩
  · exact h2.2.2.2.2.2.2.2.2.1 ⟨"success", 0, 5, "main"⟩ rfl rfl rfl (by decide)
  · exact h3.2.2.2.2.2.2.2.2.2 "pending" rfl (by decide)

/-! ## Claim C5: fetch failure propagates and never poisons the cache -/

/-- Claim C5: for each of the six Get operations, when the fetch callback
fails on a cache miss, the error is propagated (alongside the Go zero value —
`github.StatusError` for the build operation), the document is left exactly
unchanged, and a subsequent call on the resulting document with the same key
and unchanged invalidation state invokes fetch again (whatever its callback
returns). -/
theorem fetch_failure_non_poisoning
    (now : Int) (cache : CacheFile) (e : String) (t ttl : Int) (branch w : String)
    (refMtime packedRefsMtime : Option Int)
    (f2 g2 n2 : Except String String) (d2 : Except String DiffStats)
    (b2 : Except String BuildStatus) (s2 : Except String Stats) :
    (gitBranchHit cache t = none →
      getGitBranch now (some t) (.error e) cache = ⟨"", some e, cache, true⟩ ∧
      (getGitBranch now (some t) f2
        (getGitBranch now (some t) (.error e) cache).cache).fetchCalled = true) ∧
    (gitStatusHit cache t = none →
      getGitStatus now (some t) (.error e) cache = ⟨"", some e, cache, true⟩ ∧
      (getGitStatus now (some t) g2
        (getGitStatus now (some t) (.error e) cache).cache).fetchCalled = true) ∧
    (gitDiffStatsHit cache t = none →
      getGitDiffStats now (some t) (.error e) cache = ⟨{}, some e, cache, true⟩ ∧
      (getGitDiffStats now (some t) d2
        (getGitDiffStats now (some t) (.error e) cache).cache).fetchCalled = true) ∧
    (gitHubBuildHit cache branch (githubFingerprint refMtime packedRefsMtime) now ttl =
        none →
      getGitHubBuild now refMtime packedRefsMtime branch ttl (.error e) cache =
        ⟨statusError, some e, cache, true⟩ ∧
      (getGitHubBuild now refMtime packedRefsMtime branch ttl b2
        (getGitHubBuild now refMtime packedRefsMtime branch ttl (.error e) cache).cache
        ).fetchCalled = true) ∧
    (taskStatsHit cache w now ttl = none →
      getTaskStats now w ttl (.error e) cache = ⟨{}, some e, cache, true⟩ ∧
      (getTaskStats now w ttl s2
        (getTaskStats now w ttl (.error e) cache).cache).fetchCalled = true) ∧
    (nextTaskHit cache w now ttl = none →
      getNextTask now w ttl (.error e) cache = ⟨"", some e, cache, true⟩ ∧
      (getNextTask now w ttl n2
        (getNextTask now w ttl (.error e) cache).cache).fetchCalled = true) := by
  refine ⟨?_, ?_, ?_, ?_, ?_, ?_⟩
  · intro hmiss
    have h1 : getGitBranch now (some t) (.error e) cache = ⟨"", some e, cache, true⟩ := by
      simp [getGitBranch, hmiss]
    refine ⟨h1, ?_⟩
    rw [h1]
    rcases f2 with e2 | v2 <;> simp [getGitBranch, hmiss]
  · intro hmiss
    have h1 : getGitStatus now (some t) (.error e) cache = ⟨"", some e, cache, true⟩ := by
      simp [getGitStatus, hmiss]
    refine ⟨h1, ?_⟩
    rw [h1]
    rcases g2 with e2 | v2 <;> simp [getGitStatus, hmiss]
  · intro hmiss
    have h1 : getGitDiffStats now (some t) (.error e) cache = ⟨{}, some e, cache, true⟩ := by
      simp [getGitDiffStats, hmiss]
    refine ⟨h1, ?_⟩
    rw [h1]
    rcases d2 with e2 | v2 <;> simp [getGitDiffStats, hmiss]
  · intro hmiss
    have h1 : getGitHubBuild now refMtime packedRefsMtime branch ttl (.error e) cache =
        ⟨statusError, some e, cache, true⟩ := by
      simp [getGitHubBuild, hmiss]
    refine ⟨h1, ?_⟩
    rw [h1]
    rcases b2 with e2 | v2 <;> simp [getGitHubBuild, hmiss]
  · intro hmiss
    have h1 : getTaskStats now w ttl (.error e) cache = ⟨{}, some e, cache, true⟩ := by
      simp [getTaskStats, hmiss]
    refine ⟨h1, ?_⟩
    rw [h1]
    rcases s2 with e2 | v2 <;> simp [getTaskStats, hmiss]
  · intro hmiss
    have h1 : getNextTask now w ttl (.error e) cache = ⟨"", some e, cache, true⟩ := by
      simp [getNextTask, hmiss]
    refine ⟨h1, ?_⟩
    rw [h1]
    rcases n2 with e2 | v2 <;> simp [getNextTask, hmiss]

/-- Witness for claim C5: on the empty document (every hit test misses by
computation) with a callback failing with "x", each of the six operations
propagates the error, leaves the document empty, and a retry on the
resulting document invokes fetch again. -/
theorem fetch_failure_non_poisoning_witness :
    (getGitBranch 5 (some 1) (.error "x") {} = ⟨"", some "x", {}, true⟩ ∧
      (getGitBranch 5 (some 1) (.ok "main")
        (getGitBranch 5 (some 1) (.error "x") {}).cache).fetchCalled = true) ∧
    (getGitStatus 5 (some 1) (.error "x") {} = ⟨"", some "x", {}, true⟩ ∧
      (getGitStatus 5 (some 1) (.ok "*2")
        (getGitStatus 5 (some 1) (.error "x") {}).cache).fetchCalled = true) ∧
    (getGitDiffStats 5 (some 1) (.error "x") {} = ⟨{}, some "x", {}, true⟩ ∧
      (getGitDiffStats 5 (some 1) (.ok {})
        (getGitDiffStats 5 (some 1) (.error "x") {}).cache).fetchCalled = true) ∧
    (getGitHubBuild 5 (some 2) none "main" 100 (.error "x") {} =
        ⟨statusError, some "x", {}, true⟩ ∧
      (getGitHubBuild 5 (some 2) none "main" 100 (.ok "pending")
        (getGitHubBuild 5 (some 2) none "main" 100 (.error "x") {}).cache
        ).fetchCalled = true) ∧
    (getTaskStats 5 "/a" 100 (.error "x") {} = ⟨{}, some "x", {}, true⟩ ∧
      (getTaskStats 5 "/a" 100 (.ok {})
        (getTaskStats 5 "/a" 100 (.error "x") {}).cache).fetchCalled = true) ∧
    (getNextTask 5 "/a" 100 (.error "x") {} = ⟨"", some "x", {}, true⟩ ∧
      (getNextTask 5 "/a" 100 (.ok "task")
        (getNextTask 5 "/a" 100 (.error "x") {}).cache).fetchCalled = true) := by
  have h := fetch_failure_non_poisoning 5 {} "x" 1 100 "main" "/a" (some 2) none
    (.ok "main") (.ok "*2") (.ok "task") (.ok {}) (.ok "pending") (.ok {})
  exact ⟨h.1 rfl, h.2.1 rfl, h.2.2.1 rfl, h.2.2.2.1 rfl, h.2.2.2.2.1 rfl, h.2.2.2.2.2 rfl⟩

/-! ## Claim C6: corrupted persisted document behaves as an empty document -/

/-- Claim C6: bytes that fail JSON deserialization load as the empty
document, and on that document every Get operation of the manager succeeds
as a plain cache miss: with a valid fingerprint (where applicable) and a
successful fetch, each operation invokes fetch, returns its value with a nil
error, and stores it. -/
theorem corrupt_document_recovery
    (now t ttl : Int) (v title : String) (ds : DiffStats) (bs : BuildStatus) (st : Stats)
    (branch w : String) (refMtime packedRefsMtime : Option Int) :
    load .corrupt = ({} : CacheFile) ∧
    getGitBranch now (some t) (.ok v) (load .corrupt) =
      ⟨v, none, save now { gitBranch := some ⟨v, t, now⟩ }, true⟩ ∧
    getGitStatus now (some t) (.ok v) (load .corrupt) =
      ⟨v, none, save now { gitStatus := some ⟨v, t, now⟩ }, true⟩ ∧
    getGitDiffStats now (some t) (.ok ds) (load .corrupt) =
      ⟨ds, none, save now { gitDiffStats := some ⟨ds, t, now⟩ }, true⟩ ∧
    getGitHubBuild now refMtime packedRefsMtime branch ttl (.ok bs) (load .corrupt) =
      ⟨bs, none,
        save now
          { gitHubBuild := some ⟨bs, githubFingerprint refMtime packedRefsMtime, now, branch⟩ },
        true⟩ ∧
    getTaskStats now w ttl (.ok st) (load .corrupt) =
      ⟨st, none, save now { taskStatsMap := [(w, ⟨st, now⟩)] }, true⟩ ∧
    getNextTask now w ttl (.ok title) (load .corrupt) =
      ⟨title, none, save now { nextTaskMap := [(w, ⟨title, now⟩)] }, true⟩ :=
  ⟨rfl, rfl, rfl, rfl, rfl, rfl, rfl⟩

/-! ## Claim C8: per-workdir entries are independent -/

/-- Claim C8: entries cached per working directory are independent.  For
distinct workdirs `A ≠ B`: a `GetTaskStats` (resp. `GetNextTask`) call for
`A` that performs no fetch returns exactly `A`'s own entry and leaves the
document unchanged (so it can never return a value cached under `B`); any
call for `A` preserves `B`'s entry unchanged provided that entry is within
the retention window; and starting from a document holding neither key,
fetching for `A` then `B` fetches exactly once per workdir — a third call
for `A` (with unexpired TTL) is served from `A`'s stored entry without
fetch. -/
theorem per_workdir_isolation
    (now ttl : Int) (A B : String) (hAB : A ≠ B) (cache : CacheFile)
    (f f3 : Except String Stats) (g : Except String String) (sA sB : Stats) :
    ((getTaskStats now A ttl f cache).fetchCalled = false →
      taskStatsHit cache A now ttl = some (getTaskStats now A ttl f cache).value ∧
      (getTaskStats now A ttl f cache).cache = cache) ∧
    ((getNextTask now A ttl g cache).fetchCalled = false →
      nextTaskHit cache A now ttl = some (getNextTask now A ttl g cache).value ∧
      (getNextTask now A ttl g cache).cache = cache) ∧
    (∀ eB, lookupKey cache.taskStatsMap B = some eB → now - eB.cachedAt ≤ maxCacheAge →
      lookupKey (getTaskStats now A ttl f cache).cache.taskStatsMap B = some eB) ∧
    (∀ eB, lookupKey cache.nextTaskMap B = some eB → now - eB.cachedAt ≤ maxCacheAge →
      lookupKey (getNextTask now A ttl g cache).cache.nextTaskMap B = some eB) ∧
    (lookupKey cache.taskStatsMap A = none → lookupKey cache.taskStatsMap B = none →
      0 < ttl →
      (getTaskStats now A ttl (.ok sA) cache).fetchCalled = true ∧
      (getTaskStats now A ttl (.ok sA) cache).value = sA ∧
      (getTaskStats now B ttl (.ok sB)
        (getTaskStats now A ttl (.ok sA) cache).cache).fetchCalled = true ∧
      (getTaskStats now B ttl (.ok sB)
        (getTaskStats now A ttl (.ok sA) cache).cache).value = sB ∧
      (getTaskStats now A ttl f3
        (getTaskStats now B ttl (.ok sB)
          (getTaskStats now A ttl (.ok sA) cache).cache).cache).fetchCalled = false ∧
      (getTaskStats now A ttl f3
        (getTaskStats now B ttl (.ok sB)
          (getTaskStats now A ttl (.ok sA) cache).cache).cache).value = sA) := by
  have hage : (decide (now - now ≤ maxCacheAge)) = true := by
    rw [decide_eq_true_eq, sub_self]
    norm_num [maxCacheAge]
  refine ⟨?_, ?_, ?_, ?_, ?_⟩
  · intro hnf
    rcases hhit : taskStatsHit cache A now ttl with _ | s
    · rcases f with e | v <;> simp [getTaskStats, hhit] at hnf
    · simp [getTaskStats, hhit]
  · intro hnf
    rcases hhit : nextTaskHit cache A now ttl with _ | s
    · rcases g with e | v <;> simp [getNextTask, hhit] at hnf
    · simp [getNextTask, hhit]
  · intro eB heB hage2
    rcases hhit : taskStatsHit cache A now ttl with _ | s
    · rcases f with e | v
      · simp [getTaskStats, hhit, heB]
      · simp only [getTaskStats, hhit]
        simp only [save, cleanupOldEntries]
        exact lookupKey_filter_of_pos _ _ B eB
          ((lookupKey_setKey_ne cache.taskStatsMap A B _ hAB.symm).trans heB)
          (decide_eq_true hage2)
    · simp [getTaskStats, hhit, heB]
  · intro eB heB hage2
    rcases hhit : nextTaskHit cache A now ttl with _ | s
    · rcases g with e | v
      · simp [getNextTask, hhit, heB]
      · simp only [getNextTask, hhit]
        simp only [save, cleanupOldEntries]
        exact lookupKey_filter_of_pos _ _ B eB
          ((lookupKey_setKey_ne cache.nextTaskMap A B _ hAB.symm).trans heB)
          (decide_eq_true hage2)
    · simp [getNextTask, hhit, heB]
  · intro hA hB httl
    have hhitA : taskStatsHit cache A now ttl = none := by
      simp [taskStatsHit, hA]
    obtain ⟨c1, hc1⟩ : ∃ c1,
        save now { cache with taskStatsMap := setKey cache.taskStatsMap A ⟨sA, now⟩ } = c1 :=
      ⟨_, rfl⟩
    have hr1 : getTaskStats now A ttl (.ok sA) cache = ⟨sA, none, c1, true⟩ := by
      simp [getTaskStats, hhitA, hc1]
    have hm1B : lookupKey c1.taskStatsMap B = none := by
      rw [← hc1]
      simp only [save, cleanupOldEntries]
      exact lookupKey_filter_eq_none _ _ B
        ((lookupKey_setKey_ne cache.taskStatsMap A B _ hAB.symm).trans hB)
    have hm1A : lookupKey c1.taskStatsMap A = some ⟨sA, now⟩ := by
      rw [← hc1]
      simp only [save, cleanupOldEntries]
      refine lookupKey_filter_of_pos _ _ A (⟨sA, now⟩ : CachedTaskStats) ?_ ?_
      · exact lookupKey_setKey_self cache.taskStatsMap A ⟨sA, now⟩
      · exact hage
    have hhitB : taskStatsHit c1 B now ttl = none := by
      simp [taskStatsHit, hm1B]
    obtain ⟨c2, hc2⟩ : ∃ c2,
        save now { c1 with taskStatsMap := setKey c1.taskStatsMap B ⟨sB, now⟩ } = c2 :=
      ⟨_, rfl⟩
    have hr2 : getTaskStats now B ttl (.ok sB) c1 = ⟨sB, none, c2, true⟩ := by
      simp [getTaskStats, hhitB, hc2]
    have hm2A : lookupKey c2.taskStatsMap A = some ⟨sA, now⟩ := by
      rw [← hc2]
      simp only [save, cleanupOldEntries]
      refine lookupKey_filter_of_pos _ _ A (⟨sA, now⟩ : CachedTaskStats) ?_ ?_
      · exact (lookupKey_setKey_ne c1.taskStatsMap B A _ hAB).trans hm1A
      · exact hage
    have hhitA3 : taskStatsHit c2 A now ttl = some sA := by
      simp [taskStatsHit, hm2A, sub_self, httl]
    have hr3 : getTaskStats now A ttl f3 c2 = ⟨sA, none, c2, false⟩ := by
      simp [getTaskStats, hhitA3]
    refine ⟨?_, ?_, ?_, ?_, ?_, ?_⟩
    · simp [hr1]
    · simp [hr1]
    · simp [hr1, hr2]
    · simp [hr1, hr2]
    · simp [hr1, hr2, hr3]
    · simp [hr1, hr2, hr3]

/-- Witness for claim C8, at workdirs "/a" and "/b": a hit for "/a" returns
"/a"'s own entry and leaves the document unchanged; a store for "/a"
preserves "/b"'s within-retention entries in both per-workdir maps; and from
the empty document, fetching "/a" then "/b" fetches once each, after which a
third call for "/a" is served without fetch. -/
theorem per_workdir_isolation_witness :
    (taskStatsHit { taskStatsMap := [("/a", ⟨{ totalIssues := 1 }, 90⟩)] } "/a" 100 20 =
        some (getTaskStats 100 "/a" 20 (.ok {})
          { taskStatsMap := [("/a", ⟨{ totalIssues := 1 }, 90⟩)] }).value ∧
      (getTaskStats 100 "/a" 20 (.ok {})
          { taskStatsMap := [("/a", ⟨{ totalIssues := 1 }, 90⟩)] }).cache =
        { taskStatsMap := [("/a", ⟨{ totalIssues := 1 }, 90⟩)] }) ∧
    (lookupKey (getTaskStats 100 "/a" 20 (.ok { totalIssues := 3 })
        { taskStatsMap := [("/b", ⟨{ totalIssues := 2 }, 95⟩)] }).cache.taskStatsMap "/b" =
      some ⟨{ totalIssues := 2 }, 95⟩) ∧
    ((getTaskStats 100 "/a" 20 (.ok { totalIssues := 1 }) {}).fetchCalled = true ∧
      (getTaskStats 100 "/a" 20 (.ok { totalIssues := 1 }) {}).value =
        { totalIssues := 1 } ∧
      (getTaskStats 100 "/b" 20 (.ok { totalIssues := 2 })
        (getTaskStats 100 "/a" 20 (.ok { totalIssues := 1 }) {}).cache).fetchCalled = true ∧
      (getTaskStats 100 "/b" 20 (.ok { totalIssues := 2 })
        (getTaskStats 100 "/a" 20 (.ok { totalIssues := 1 }) {}).cache).value =
        { totalIssues := 2 } ∧
      (getTaskStats 100 "/a" 20 (.ok { totalIssues := 3 })
        (getTaskStats 100 "/b" 20 (.ok { totalIssues := 2 })
          (getTaskStats 100 "/a" 20 (.ok { totalIssues := 1 }) {}).cache).cache
        ).fetchCalled = false ∧
      (getTaskStats 100 "/a" 20 (.ok { totalIssues := 3 })
        (getTaskStats 100 "/b" 20 (.ok { totalIssues := 2 })
          (getTaskStats 100 "/a" 20 (.ok { totalIssues := 1 }) {}).cache).cache).value =
        { totalIssues := 1 }) := by
  have h1 := per_workdir_isolation 100 20 "/a" "/b" (by decide)
    { taskStatsMap := [("/a", ⟨{ totalIssues := 1 }, 90⟩)] }
    (.ok {}) (.ok {}) (.ok "t") {} {}
  have h2 := per_workdir_isolation 100 20 "/a" "/b" (by decide)
    { taskStatsMap := [("/b", ⟨{ totalIssues := 2 }, 95⟩)] }
    (.ok { totalIssues := 3 }) (.ok {}) (.ok "t") {} {}
  have h3 := per_workdir_isolation 100 20 "/a" "/b" (by decide) {}
    (.ok { totalIssues := 1 }) (.ok { totalIssues := 3 }) (.ok "t")
    { totalIssues := 1 } { totalIssues := 2 }
  refine ⟨h1.1 (by decide), ?_, h3.2.2.2.2 rfl rfl (by decide)⟩
  exact h2.2.2.1 ⟨{ totalIssues := 2 }, 95⟩ rfl (by decide)

/-! ## Claim C9: eviction of stale per-workdir entries on every save -/

/-- Claim C9: every `save` first removes from `TaskStatsMap` and
`NextTaskMap` exactly the entries whose age exceeds the one-week retention
window (an entry survives if and only if it was present and its age is at
most `maxCacheAge`), regardless of which key the save was writing, and never
evicts anything outside these two maps (the four singleton fields are
preserved verbatim). -/
theorem save_evicts_old_entries (now : Int) (cache : CacheFile)
    (hT : keysNodup cache.taskStatsMap) (hN : keysNodup cache.nextTaskMap) :
    (save now cache).gitBranch = cache.gitBranch ∧
    (save now cache).gitStatus = cache.gitStatus ∧
    (save now cache).gitDiffStats = cache.gitDiffStats ∧
    (save now cache).gitHubBuild = cache.gitHubBuild ∧
    (∀ k e, lookupKey (save now cache).taskStatsMap k = some e ↔
      lookupKey cache.taskStatsMap k = some e ∧ now - e.cachedAt ≤ maxCacheAge) ∧
    (∀ k e, lookupKey cache.taskStatsMap k = some e → maxCacheAge < now - e.cachedAt →
      lookupKey (save now cache).taskStatsMap k = none) ∧
    (∀ k e, lookupKey (save now cache).nextTaskMap k = some e ↔
      lookupKey cache.nextTaskMap k = some e ∧ now - e.cachedAt ≤ maxCacheAge) ∧
    (∀ k e, lookupKey cache.nextTaskMap k = some e → maxCacheAge < now - e.cachedAt →
      lookupKey (save now cache).nextTaskMap k = none) := by
  refine ⟨rfl, rfl, rfl, rfl, ?_, ?_, ?_, ?_⟩
  · intro k e
    have h := lookupKey_filter_iff cache.taskStatsMap hT
      (fun kv => decide (now - kv.2.cachedAt ≤ maxCacheAge)) k e
    simpa [save, cleanupOldEntries] using h
  · intro k e hk hold
    rcases h' : lookupKey (save now cache).taskStatsMap k with _ | e'
    · rfl
    · exfalso
      have h2 := (lookupKey_filter_iff cache.taskStatsMap hT
        (fun kv => decide (now - kv.2.cachedAt ≤ maxCacheAge)) k e').mp
        (by simpa [save, cleanupOldEntries] using h')
      rw [hk] at h2
      obtain ⟨he', hle⟩ := h2
      have hee : e = e' := by
        injection he'
      subst hee
      rw [decide_eq_true_eq] at hle
      have hle2 : now - e.cachedAt ≤ maxCacheAge := hle
      omega
  · intro k e
    have h := lookupKey_filter_iff cache.nextTaskMap hN
      (fun kv => decide (now - kv.2.cachedAt ≤ maxCacheAge)) k e
    simpa [save, cleanupOldEntries] using h
  · intro k e hk hold
    rcases h' : lookupKey (save now cache).nextTaskMap k with _ | e'
    · rfl
    · exfalso
      have h2 := (lookupKey_filter_iff cache.nextTaskMap hN
        (fun kv => decide (now - kv.2.cachedAt ≤ maxCacheAge)) k e').mp
        (by simpa [save, cleanupOldEntries] using h')
      rw [hk] at h2
      obtain ⟨he', hle⟩ := h2
      have hee : e = e' := by
        injection he'
      subst hee
      rw [decide_eq_true_eq] at hle
      have hle2 : now - e.cachedAt ≤ maxCacheAge := hle
      omega

/-- Witness for claim C9: saving at time 700000000000000 ns a document with a
git-branch entry, a week-stale "/old" entry (age 7·10^14 ns > one week) and a
fresh "/new" entry (age 10^14 ns) in `TaskStatsMap`, plus a stale "/old"
entry in `NextTaskMap`: the stale entries are gone, the fresh one and the
git-branch field survive. -/
theorem save_evicts_old_entries_witness :
    (save 700000000000000
        { gitBranch := some ⟨"main", 1, 2⟩,
          taskStatsMap := [("/old", ⟨{}, 0⟩), ("/new", ⟨{}, 600000000000000⟩)],
          nextTaskMap := [("/old", ⟨"t", 0⟩)] }).gitBranch = some ⟨"main", 1, 2⟩ ∧
    lookupKey (save 700000000000000
        { gitBranch := some ⟨"main", 1, 2⟩,
          taskStatsMap := [("/old", ⟨{}, 0⟩), ("/new", ⟨{}, 600000000000000⟩)],
          nextTaskMap := [("/old", ⟨"t", 0⟩)] }).taskStatsMap "/old" = none ∧
    lookupKey (save 700000000000000
        { gitBranch := some ⟨"main", 1, 2⟩,
          taskStatsMap := [("/old", ⟨{}, 0⟩), ("/new", ⟨{}, 600000000000000⟩)],
          nextTaskMap := [("/old", ⟨"t", 0⟩)] }).taskStatsMap "/new" =
      some ⟨{}, 600000000000000⟩ ∧
    lookupKey (save 700000000000000
        { gitBranch := some ⟨"main", 1, 2⟩,
          taskStatsMap := [("/old", ⟨{}, 0⟩), ("/new", ⟨{}, 600000000000000⟩)],
          nextTaskMap := [("/old", ⟨"t", 0⟩)] }).nextTaskMap "/old" = none := by
  have h := save_evicts_old_entries 700000000000000
    { gitBranch := some ⟨"main", 1, 2⟩,
      taskStatsMap := [("/old", ⟨{}, 0⟩), ("/new", ⟨{}, 600000000000000⟩)],
      nextTaskMap := [("/old", ⟨"t", 0⟩)] } (by decide) (by decide)
  refine ⟨h.1, ?_, ?_, ?_⟩
  · exact h.2.2.2.2.2.1 "/old" ⟨{}, 0⟩ rfl (by decide)
  · exact (h.2.2.2.2.1 "/new" ⟨{}, 600000000000000⟩).mpr ⟨rfl, by decide⟩
  · exact h.2.2.2.2.2.2.2 "/old" ⟨"t", 0⟩ rfl (by decide)

/-! ## Claim C10: TTL validity is strict -/

/-- Claim C10: the TTL comparison of every TTL-governed operation
(`GetGitHubBuild`, `GetTaskStats`, `GetNextTask`) is strict
(`now.Sub(CachedAt) < ttl`): an entry whose age equals the TTL exactly is
expired and the call invokes fetch, whatever the other conditions; and with a
TTL of zero every call invokes fetch (given that no cached entry postdates
the clock, which the manager guarantees by stamping entries with the clock
itself). -/
theorem ttl_expiry_strict
    (now ttl : Int) (cache : CacheFile) (branch w : String)
    (refMtime packedRefsMtime : Option Int)
    (fb : Except String BuildStatus) (fs : Except String Stats)
    (fn : Except String String) :
    (∀ e, cache.gitHubBuild = some e → now - e.cachedAt = ttl →
      (getGitHubBuild now refMtime packedRefsMtime branch ttl fb cache).fetchCalled =
        true) ∧
    (ttl = 0 → (∀ e, cache.gitHubBuild = some e → e.cachedAt ≤ now) →
      (getGitHubBuild now refMtime packedRefsMtime branch ttl fb cache).fetchCalled =
        true) ∧
    (∀ e, lookupKey cache.taskStatsMap w = some e → now - e.cachedAt = ttl →
      (getTaskStats now w ttl fs cache).fetchCalled = true) ∧
    (ttl = 0 → (∀ e, lookupKey cache.taskStatsMap w = some e → e.cachedAt ≤ now) →
      (getTaskStats now w ttl fs cache).fetchCalled = true) ∧
    (∀ e, lookupKey cache.nextTaskMap w = some e → now - e.cachedAt = ttl →
      (getNextTask now w ttl fn cache).fetchCalled = true) ∧
    (ttl = 0 → (∀ e, lookupKey cache.nextTaskMap w = some e → e.cachedAt ≤ now) →
      (getNextTask now w ttl fn cache).fetchCalled = true) := by
  refine ⟨?_, ?_, ?_, ?_, ?_, ?_⟩
  · intro e he heq
    have hhit : gitHubBuildHit cache branch
        (githubFingerprint refMtime packedRefsMtime) now ttl = none := by
      rw [gitHubBuildHit_of_entry cache e branch _ now ttl he, if_neg]
      rintro ⟨-, -, hlt⟩
      omega
    rcases fb with e2 | s <;> simp [getGitHubBuild, hhit]
  · rintro rfl hb
    have hhit : gitHubBuildHit cache branch
        (githubFingerprint refMtime packedRefsMtime) now 0 = none := by
      rcases hgb : cache.gitHubBuild with _ | e
      · simp [gitHubBuildHit, hgb]
      · rw [gitHubBuildHit_of_entry cache e branch _ now 0 hgb, if_neg]
        rintro ⟨-, -, hlt⟩
        have := hb e hgb
        omega
    rcases fb with e2 | s <;> simp [getGitHubBuild, hhit]
  · intro e he heq
    have hhit : taskStatsHit cache w now ttl = none := by
      simp only [taskStatsHit, he]
      rw [if_neg (by omega)]
    rcases fs with e2 | s <;> simp [getTaskStats, hhit]
  · rintro rfl hb
    have hhit : taskStatsHit cache w now 0 = none := by
      rcases hl : lookupKey cache.taskStatsMap w with _ | e
      · simp [taskStatsHit, hl]
      · have := hb e hl
        simp only [taskStatsHit, hl]
        rw [if_neg (by omega)]
    rcases fs with e2 | s <;> simp [getTaskStats, hhit]
  · intro e he heq
    have hhit : nextTaskHit cache w now ttl = none := by
      simp only [nextTaskHit, he]
      rw [if_neg (by omega)]
    rcases fn with e2 | s <;> simp [getNextTask, hhit]
  · rintro rfl hb
    have hhit : nextTaskHit cache w now 0 = none := by
      rcases hl : lookupKey cache.nextTaskMap w with _ | e
      · simp [nextTaskHit, hl]
      · have := hb e hl
        simp only [nextTaskHit, hl]
        rw [if_neg (by omega)]
    rcases fn with e2 | s <;> simp [getNextTask, hhit]

/-- Witness for claim C10: a build entry cached at 100 and queried at 160
with TTL 60 (age exactly equal to the TTL, branch and fingerprint matching)
is refetched, as are per-workdir entries in the same situation; and with TTL
0 every operation fetches even against just-written entries. -/
theorem ttl_expiry_strict_witness :
    (getGitHubBuild 160 (some 5) none "main" 60 (.ok "pending")
      { gitHubBuild := some ⟨"success", 5, 100, "main"⟩ }).fetchCalled = true ∧
    (getGitHubBuild 100 (some 5) none "main" 0 (.ok "pending")
      { gitHubBuild := some ⟨"success", 5, 100, "main"⟩ }).fetchCalled = true ∧
    (getTaskStats 160 "/a" 60 (.ok {})
      { taskStatsMap := [("/a", ⟨{}, 100⟩)] }).fetchCalled = true ∧
    (getTaskStats 100 "/a" 0 (.ok {})
      { taskStatsMap := [("/a", ⟨{}, 100⟩)] }).fetchCalled = true ∧
    (getNextTask 160 "/a" 60 (.ok "t")
      { nextTaskMap := [("/a", ⟨"task", 100⟩)] }).fetchCalled = true ∧
    (getNextTask 100 "/a" 0 (.ok "t")
      { nextTaskMap := [("/a", ⟨"task", 100⟩)] }).fetchCalled = true := by
  have h1 := ttl_expiry_strict 160 60
    { gitHubBuild := some ⟨"success", 5, 100, "main"⟩,
      taskStatsMap := [("/a", ⟨{}, 100⟩)], nextTaskMap := [("/a", ⟨"task", 100⟩)] }
    "main" "/a" (some 5) none (.ok "pending") (.ok {}) (.ok "t")
  have h2 := ttl_expiry_strict 100 0
    { gitHubBuild := some ⟨"success", 5, 100, "main"⟩,
      taskStatsMap := [("/a", ⟨{}, 100⟩)], nextTaskMap := [("/a", ⟨"task", 100⟩)] }
    "main" "/a" (some 5) none (.ok "pending") (.ok {}) (.ok "t")
  refine ⟨?_, ?_, ?_, ?_, ?_, ?_⟩
  · exact h1.1 ⟨"success", 5, 100, "main"⟩ rfl (by decide)
  · exact h2.2.1 rfl (by rintro e he; injection he with he; rw [← he])
  · exact h1.2.2.1 ⟨{}, 100⟩ rfl (by decide)
  · exact h2.2.2.2.1 rfl (by rintro e he; injection he with he; rw [← he])
  · exact h1.2.2.2.2.1 ⟨"task", 100⟩ rfl (by decide)
  · exact h2.2.2.2.2.2 rfl (by rintro e he; injection he with he; rw [← he])

end Cache

end ClaudeStatus
